import Mathlib

/-
Verification of the EduMood emotion-recognition pipeline
(edumood_recognizer.py and the aggregation step of app.py).

The code is embedded shallowly:
  - images are finite pixel grids (lists of rows);
  - the external capabilities (Haar-cascade detection, DeepFace
    classification, OpenCV drawing) are parameters of the analysis
    functions, with a raised exception modelled as an Except.error;
  - wall-clock instants are natural-number timestamps supplied by the
    caller, latencies are exact rationals;
  - the mutable attributes of EduMoodRecognizer become an explicit
    state record threaded through the per-frame entry point.
Every definition mirrors the named Python function it embeds.
-/

namespace EduMood

/-- Pixel image: a list of rows, one abstract pixel value per cell.
Models the numpy ndarray handed around by the recognizer. -/
abbrev Img := List (List Nat)

/-- Model of cv2.flip(img, 1) (edumood_recognizer.py line 134): horizontal
mirror, every row reversed. -/
def flipH (img : Img) : Img := img.map List.reverse

/-- Face bounding region (x, y, w, h) as produced by detectMultiScale. -/
structure Region where
  x : Nat
  y : Nat
  w : Nat
  h : Nat
deriving DecidableEq, Repr

/-- Model of the numpy slice img[y : y + h, x : x + w] (line 89). -/
def cropRegion (img : Img) (r : Region) : Img :=
  ((img.drop r.y).take r.h).map (fun row => (row.drop r.x).take r.w)

/-- Model of Python str.lower() for the label strings flowing through the
pipeline: every character lowercased. -/
def strLower (s : String) : String := ⟨s.data.map Char.toLower⟩

/-- The external capabilities used by analyze_frame, out of scope of the
core (spec section 1): face localization (the grayscale conversion, CLAHE
contrast step and Haar detectMultiScale, folded into one function of the
incoming frame), per-region emotion classification (DeepFace.analyze
distilled to the dominant-emotion string it yields; Except.error stands
for a raised exception), and the two OpenCV drawing calls. -/
structure Capabilities where
  detect : Img → List Region
  classify : Img → Except String String
  drawRect : Img → Region → Img
  putLabel : Img → String → Region → Img

/-- Model of the per-face loop of EduMoodRecognizer.analyze_frame
(lines 88-118).  Each region is cropped out of the current (already
partially annotated) image and classified; on success the lowercased
dominant label is collected when non-empty and the box plus label are
drawn; a raised exception is caught, the region is skipped and the loop
continues with the next region. -/
def analyzeFaces (cap : Capabilities) : List Region → Img → Img × List String
  | [], img => (img, [])
  | r :: rs, img =>
    match cap.classify (cropRegion img r) with
    | Except.error _ => analyzeFaces cap rs img
    | Except.ok raw =>
      let dom := strLower raw
      let img2 := cap.putLabel (cap.drawRect img r) dom r
      let res := analyzeFaces cap rs img2
      (res.1, if dom = "" then res.2 else dom :: res.2)

/-- Model of EduMoodRecognizer.analyze_frame (lines 69-120): detect the
faces on the (preprocessed) frame, then run the per-face loop.  The
function is total: no exception escapes it. -/
def analyze_frame (cap : Capabilities) (img_bgr : Img) : Img × List String :=
  analyzeFaces cap (cap.detect img_bgr) img_bgr

/-- The fixed seven-category emotion schema of the session records. -/
structure EmotionCounts where
  happy : Nat
  sad : Nat
  angry : Nat
  surprise : Nat
  neutral : Nat
  disgusted : Nat
  fearful : Nat
deriving DecidableEq, Repr

/-- Model of the Counter-based record construction of recognize
(lines 163-178): every raw label is lowercased and tallied; each schema
field sums the tallies of its synonyms; labels outside the synonym table
contribute to no field. -/
def normalizeCounts (emotions : List String) : EmotionCounts :=
  let ls := emotions.map strLower
  { happy := ls.count "happy"
    sad := ls.count "sad"
    angry := ls.count "angry"
    surprise := ls.count "surprise" + ls.count "surprised"
    neutral := ls.count "neutral"
    disgusted := ls.count "disgust" + ls.count "disgusted"
    fearful := ls.count "fear" + ls.count "fearful" }

/-- One session-statistics record as recognize builds it: the recorded_at
timestamp plus the seven normalized counts. -/
structure EmotionRecord where
  recorded_at : Nat
  counts : EmotionCounts
deriving DecidableEq, Repr

/-- The raised-at-construction error class the spec names
ConfigurationError.  The embedded constructor below shows it is never
produced for any sampling interval. -/
inductive ConfigurationError where
  | invalidInterval
deriving DecidableEq, Repr

/-- The mutable attributes of one EduMoodRecognizer instance
(lines 52-67), together with the records list of the EduMoodSessionStats
object it feeds (line 180). -/
structure RecState where
  analyze_every_n : Int
  frame_count : Int
  last_annotated : Option Img
  latency_records : List ℚ
  session_start : Nat
  session_end : Option Nat
  stats_records : List EmotionRecord
deriving DecidableEq, Repr

/-- The state EduMoodRecognizer.__init__ establishes (lines 52-67), with
the construction instant as the session_start timestamp. -/
def initState (now : Nat) (analyze_every_n : Int) : RecState :=
  { analyze_every_n := analyze_every_n
    frame_count := 0
    last_annotated := none
    latency_records := []
    session_start := now
    session_end := none
    stats_records := [] }

/-- Model of EduMoodRecognizer.__init__ (lines 52-67).  The body stores
the arguments, zeroes the counter and the ledgers and loads the face
cascade (an external resource, modelled as loading successfully); it
contains no validation of analyze_every_n and no raise statement, so the
result is Except.ok for every interval, including zero and negatives. -/
def edumood_init (now : Nat) (analyze_every_n : Int) :
    Except ConfigurationError RecState :=
  Except.ok (initState now analyze_every_n)

/-- Model of the Python % operator on integers: the remainder of floor
division, whose sign follows the divisor.  Python raises
ZeroDivisionError for a zero modulus; that case is outside every theorem
below, which all assume a positive sampling interval. -/
def pymod (a b : Int) : Int := Int.fmod a b

/-- The per-call inputs of recognize that come from outside the state:
the incoming frame, the measured analysis latency in milliseconds
(end_time minus start_time of lines 145-149) and the wall-clock instant
datetime.now() of this call. -/
structure FrameInput where
  frame : Img
  latency : ℚ
  now : Nat
deriving DecidableEq, Repr

/-- Model of EduMoodRecognizer.recognize (lines 122-182).  The counter is
incremented first; the frame is converted and mirrored; off-cycle calls
return the mirrored raw image (no cache yet) or the cached annotated
image; on-cycle calls run analyze_frame, append the latency sample, set
session_end to now, overwrite the cache and, when at least one label was
collected, append a normalized record to the session statistics. -/
def recognize (cap : Capabilities) (inp : FrameInput) (s : RecState) :
    RecState × Img :=
  let fc := s.frame_count + 1
  let img := flipH inp.frame
  if pymod fc s.analyze_every_n ≠ 0 then
    match s.last_annotated with
    | none => ({ s with frame_count := fc }, img)
    | some prev => ({ s with frame_count := fc }, prev)
  else
    let ae := analyze_frame cap img
    ({ s with
        frame_count := fc
        latency_records := s.latency_records ++ [inp.latency]
        session_end := some inp.now
        last_annotated := some ae.1
        stats_records :=
          if ae.2.isEmpty then s.stats_records
          else s.stats_records ++ [⟨inp.now, normalizeCounts ae.2⟩] },
     ae.1)

/-- A whole session: the transport layer calls recognize once per frame,
serially, threading the state. -/
def runFrames (cap : Capabilities) (s : RecState) :
    List FrameInput → RecState × List Img
  | [] => (s, [])
  | inp :: rest =>
    let step := recognize cap inp s
    let tail := runFrames cap step.1 rest
    (tail.1, step.2 :: tail.2)

/-- The figures print_latency_summary derives and logs (lines 185-211). -/
structure LatencySummaryInfo where
  count : Nat
  avgMs : ℚ
  minMs : ℚ
  maxMs : ℚ
  durationSec : Int
deriving DecidableEq, Repr

/-- Model of EduMoodRecognizer.print_latency_summary (lines 185-211),
called by the end-of-stream hook of app.py.  With no recorded samples it
logs a no-data line and returns at once, computing none of the figures
(result none, state untouched).  Otherwise it computes average, minimum
and maximum of the samples, sets session_end to now when it is still
unset, and derives the session duration from session_end minus
session_start. -/
def print_latency_summary (now : Nat) (s : RecState) :
    RecState × Option LatencySummaryInfo :=
  match s.latency_records with
  | [] => (s, none)
  | x :: xs =>
    let lats := x :: xs
    let avg : ℚ := lats.sum / (lats.length : ℚ)
    let mn : ℚ := xs.foldl min x
    let mx : ℚ := xs.foldl max x
    let endT : Nat := s.session_end.getD now
    ({ s with session_end := some endT },
     some ⟨lats.length, avg, mn, mx, (endT : Int) - (s.session_start : Int)⟩)

/-- A Python value stored in a session-statistics dict: the records the
recognizer appends hold a timestamp string and integer counts, and
add_record accepts any dict. -/
inductive PyVal where
  | s (v : String)
  | i (v : Int)
deriving DecidableEq, Repr

/-- An insertion-ordered Python dict, as a key-value list. -/
abbrev PyDict := List (String × PyVal)

/-- Model of EduMoodSessionStats (lines 15-41): the append-only records
list of one session. -/
structure EduMoodSessionStats where
  records : List PyDict
deriving DecidableEq, Repr

/-- Model of EduMoodSessionStats.add_record (lines 24-25): appends the
given dict unconditionally, with no key validation. -/
def add_record (st : EduMoodSessionStats) (record : PyDict) :
    EduMoodSessionStats :=
  ⟨st.records ++ [record]⟩

/-- The fixed eight-column schema of the empty-ledger DataFrame
(lines 29-40). -/
def edumoodColumns : List String :=
  ["recorded_at", "happy", "sad", "angry", "surprise", "neutral",
   "disgusted", "fearful"]

/-- Keys of one dict, in insertion order. -/
def dictKeys (d : PyDict) : List String := d.map Prod.fst

/-- Folds the keys of one dict into an accumulated column list, keeping
first occurrences only, in order of first appearance. -/
def addNewKeys (acc : List String) (ks : List String) : List String :=
  ks.foldl (fun a k => if k ∈ a then a else a ++ [k]) acc

/-- The column list pandas derives for DataFrame(list-of-dicts): the
union of the keys of the records, ordered by first appearance. -/
def unionKeys (records : List PyDict) : List String :=
  records.foldl (fun a r => addNewKeys a (dictKeys r)) []

/-- A pandas DataFrame distilled to what the claims need: its column
list and its rows, a missing key surfacing as none (NaN). -/
structure DataFrame where
  columns : List String
  rows : List (List (Option PyVal))
deriving DecidableEq, Repr

/-- Python dict lookup used to fill a row cell. -/
def dictGet (d : PyDict) (k : String) : Option PyVal :=
  (d.find? (fun p => p.1 == k)).map Prod.snd

/-- Model of EduMoodSessionStats.to_dataframe (lines 27-41): with no
records, an empty frame with the fixed eight columns; otherwise
pandas DataFrame(records), whose columns are the first-appearance union
of the record keys. -/
def to_dataframe (st : EduMoodSessionStats) : DataFrame :=
  if st.records.isEmpty then ⟨edumoodColumns, []⟩
  else
    let cols := unionKeys st.records
    ⟨cols, st.records.map (fun r => cols.map (fun c => dictGet r c))⟩

/-- The emotion column list of app.py line 109. -/
def emotion_cols : List String :=
  ["happy", "sad", "angry", "surprise", "neutral", "disgusted", "fearful"]

/-- Reads one schema field of a record by column name. -/
def getCategory (e : EmotionCounts) (c : String) : Nat :=
  if c = "happy" then e.happy
  else if c = "sad" then e.sad
  else if c = "angry" then e.angry
  else if c = "surprise" then e.surprise
  else if c = "neutral" then e.neutral
  else if c = "disgusted" then e.disgusted
  else if c = "fearful" then e.fearful
  else 0

/-- The per-column sums df_indexed[emotion_cols].sum() of app.py
line 110, one entry per emotion column in declaration order. -/
def columnTotals (recs : List EmotionCounts) : List (String × Nat) :=
  emotion_cols.map (fun c => (c, (recs.map (fun r => getCategory r c)).sum))

/-- Stable ascending insertion by the count component: the new element
passes every element less than or equal to it, so equal counts keep
their incoming order. -/
def insertAsc (x : String × Nat) : List (String × Nat) → List (String × Nat)
  | [] => [x]
  | y :: ys => if y.2 ≤ x.2 then y :: insertAsc x ys else x :: y :: ys

/-- Stable ascending sort by count (insertion sort), the order numpy
argsort produces for an array of this size (it runs a stable insertion
sort below its small-array threshold). -/
def sortAscStable (l : List (String × Nat)) : List (String × Nat) :=
  l.foldl (fun acc x => insertAsc x acc) []

/-- Model of df_grouped of app.py line 110:
Series.sort_values(ascending=False) delegates to pandas nargsort, which
reverses the values and their indices, takes a stable ascending argsort
of the reversed array (numpy runs a stable insertion sort below its
small-array threshold), and reverses the resulting indexer again.  The
double reversal makes the descending order stable: equal totals keep
their original, declaration, order. -/
def df_grouped (recs : List EmotionCounts) : List (String × Nat) :=
  (sortAscStable (columnTotals recs).reverse).reverse

/-- Specification-level replay of the annotation cache: the value
last_annotated holds after the given calls, starting from counter c and
cache la.  Call number c + 1 analyzes exactly when the interval divides
it, and then the cache becomes the annotated output of analyze_frame on
the mirrored incoming frame. -/
def lastAnnSpec (cap : Capabilities) (N : Nat) :
    Nat → Option Img → List FrameInput → Option Img
  | _, la, [] => la
  | c, la, inp :: rest =>
    lastAnnSpec cap N (c + 1)
      (if N ∣ (c + 1) then some (analyze_frame cap (flipH inp.frame)).1 else la)
      rest

/-- A stub environment for concrete executions: no face is ever
detected, classification always raises, drawing is the identity. -/
def capStub : Capabilities :=
  { detect := fun _ => []
    classify := fun _ => Except.error "unavailable"
    drawRect := fun i _ => i
    putLabel := fun i _ _ => i }

/-- A three-face environment for concrete executions: on the two-by-two
test image the detector reports three regions, and classification raises
exactly on the middle one (whose crop is the pixel 2). -/
def capFaces : Capabilities :=
  { detect := fun _ => [⟨0, 0, 1, 1⟩, ⟨1, 0, 1, 1⟩, ⟨0, 1, 1, 1⟩]
    classify := fun roi =>
      if roi = [[2]] then Except.error "boom" else Except.ok "happy"
    drawRect := fun i _ => i
    putLabel := fun i _ _ => i }

/-- First appended record of the tie-breaking example: three happy. -/
def statsA : EmotionCounts := ⟨3, 0, 0, 0, 0, 0, 0⟩

/-- Second appended record of the tie-breaking example: two happy and
five sad. -/
def statsB : EmotionCounts := ⟨2, 5, 0, 0, 0, 0, 0⟩

/-- A recognizer state with one latency sample recorded and the
session-end instant still unset. -/
def sampleEnd : RecState := { initState 5 1 with latency_records := [10] }

/-
Helper lemmas about the embedded operations.
-/

/-- A nonnegative value modulo a positive modulus vanishes exactly on
multiples, in the sense of the Python % operator. -/
lemma pymod_eq_zero_iff (a N : ℕ) (hN : 0 < N) :
    pymod (a : ℤ) (N : ℤ) = 0 ↔ N ∣ a := by
  unfold pymod
  rw [Int.fmod_eq_emod _ (by positivity)]
  omega

/-- On-cycle shape of recognize: when the incremented counter is a
multiple of the interval, the analysis branch runs. -/
lemma recognize_due (cap : Capabilities) (inp : FrameInput) (s : RecState)
    (h : pymod (s.frame_count + 1) s.analyze_every_n = 0) :
    recognize cap inp s =
      ({ s with
          frame_count := s.frame_count + 1
          latency_records := s.latency_records ++ [inp.latency]
          session_end := some inp.now
          last_annotated := some (analyze_frame cap (flipH inp.frame)).1
          stats_records :=
            if (analyze_frame cap (flipH inp.frame)).2.isEmpty then
              s.stats_records
            else
              s.stats_records ++
                [⟨inp.now, normalizeCounts (analyze_frame cap (flipH inp.frame)).2⟩] },
       (analyze_frame cap (flipH inp.frame)).1) := by
  unfold recognize
  rw [if_neg (by simp [h])]

/-- Off-cycle shape of recognize: only the counter moves, and the output
is the cached annotated frame, or the mirrored raw frame when no cache
exists yet. -/
lemma recognize_skip (cap : Capabilities) (inp : FrameInput) (s : RecState)
    (h : pymod (s.frame_count + 1) s.analyze_every_n ≠ 0) :
    recognize cap inp s =
      ({ s with frame_count := s.frame_count + 1 },
       s.last_annotated.getD (flipH inp.frame)) := by
  unfold recognize
  rw [if_pos h]
  cases s.last_annotated <;> rfl

/-- Unfolding step of a session run. -/
lemma runFrames_cons (cap : Capabilities) (s : RecState) (inp : FrameInput)
    (rest : List FrameInput) :
    runFrames cap s (inp :: rest) =
      ((runFrames cap (recognize cap inp s).1 rest).1,
       (recognize cap inp s).2 :: (runFrames cap (recognize cap inp s).1 rest).2) :=
  rfl

/-- Output side of one session step. -/
lemma runFrames_snd_cons (cap : Capabilities) (s : RecState) (inp : FrameInput)
    (rest : List FrameInput) :
    (runFrames cap s (inp :: rest)).2 =
      (recognize cap inp s).2 ::
        (runFrames cap (recognize cap inp s).1 rest).2 :=
  rfl

/-- A session run over a concatenation is the run over the first part
followed by the run over the second from the reached state. -/
lemma runFrames_append (cap : Capabilities) (s : RecState)
    (as bs : List FrameInput) :
    runFrames cap s (as ++ bs) =
      ((runFrames cap (runFrames cap s as).1 bs).1,
       (runFrames cap s as).2 ++ (runFrames cap (runFrames cap s as).1 bs).2) := by
  induction as generalizing s with
  | nil => simp [runFrames]
  | cons a as ih =>
    simp only [List.cons_append, runFrames_cons, ih, List.cons_append]

/-- One output frame per input frame. -/
lemma runFrames_length (cap : Capabilities) (s : RecState)
    (inputs : List FrameInput) :
    (runFrames cap s inputs).2.length = inputs.length := by
  induction inputs generalizing s with
  | nil => rfl
  | cons inp rest ih => simp [runFrames_cons, ih]

/-- Projections of one recognize step that every branch leaves alike:
the interval is immutable and the counter advances by one. -/
lemma recognize_fields (cap : Capabilities) (inp : FrameInput) (s : RecState) :
    (recognize cap inp s).1.analyze_every_n = s.analyze_every_n
    ∧ (recognize cap inp s).1.frame_count = s.frame_count + 1
    ∧ (recognize cap inp s).1.session_start = s.session_start := by
  rcases eq_or_ne (pymod (s.frame_count + 1) s.analyze_every_n) 0 with h | h
  · rw [recognize_due cap inp s h]
    exact ⟨rfl, rfl, rfl⟩
  · rw [recognize_skip cap inp s h]
    exact ⟨rfl, rfl, rfl⟩

/-- Shifting a divisibility count across one leading call. -/
lemma countP_range_shift (N c L : ℕ) :
    (List.range (L + 1)).countP (fun i => decide (N ∣ (c + i + 1))) =
      (if N ∣ (c + 1) then 1 else 0) +
        (List.range L).countP (fun i => decide (N ∣ (c + 1 + i + 1))) := by
  rw [List.range_succ_eq_map, List.countP_cons, List.countP_map]
  have h1 : ((fun i => decide (N ∣ (c + i + 1))) ∘ Nat.succ) =
      (fun i => decide (N ∣ (c + 1 + i + 1))) := by
    funext i
    simp only [Function.comp_apply]
    have harg : c + Nat.succ i + 1 = c + 1 + i + 1 := by omega
    rw [harg]
  rw [h1]
  simp only [Nat.add_zero]
  by_cases hd : N ∣ (c + 1) <;> simp [hd] <;> omega

/-- The latency ledger grows by one sample exactly on the analysis
branch. -/
lemma recognize_latency_len (cap : Capabilities) (inp : FrameInput)
    (s : RecState) :
    (recognize cap inp s).1.latency_records.length =
      s.latency_records.length +
        (if pymod (s.frame_count + 1) s.analyze_every_n = 0 then 1 else 0) := by
  rcases eq_or_ne (pymod (s.frame_count + 1) s.analyze_every_n) 0 with h | h
  · rw [recognize_due cap inp s h, if_pos h]
    simp
  · rw [recognize_skip cap inp s h, if_neg h]
    simp

/-- The cache is overwritten with the freshly annotated frame on the
analysis branch and untouched otherwise. -/
lemma recognize_last_ann (cap : Capabilities) (inp : FrameInput)
    (s : RecState) :
    (recognize cap inp s).1.last_annotated =
      (if pymod (s.frame_count + 1) s.analyze_every_n = 0
       then some (analyze_frame cap (flipH inp.frame)).1
       else s.last_annotated) := by
  rcases eq_or_ne (pymod (s.frame_count + 1) s.analyze_every_n) 0 with h | h
  · rw [recognize_due cap inp s h, if_pos h]
  · rw [recognize_skip cap inp s h, if_neg h]

/-- Main state invariant of a session run, relative to a positive
interval N, a starting counter value c and the starting cache: the
counter advances once per call, the latency ledger grows exactly on the
calls whose incremented counter is a multiple of N, and the cache equals
its specification-level replay. -/
lemma runFrames_state (cap : Capabilities) (N : ℕ) (hN : 0 < N)
    (inputs : List FrameInput) :
    ∀ (s : RecState) (c : ℕ),
      s.analyze_every_n = (N : ℤ) → s.frame_count = (c : ℤ) →
      (runFrames cap s inputs).1.analyze_every_n = (N : ℤ)
      ∧ (runFrames cap s inputs).1.frame_count = ((c + inputs.length : ℕ) : ℤ)
      ∧ (runFrames cap s inputs).1.latency_records.length =
          s.latency_records.length +
            (List.range inputs.length).countP (fun i => decide (N ∣ (c + i + 1)))
      ∧ (runFrames cap s inputs).1.last_annotated =
          lastAnnSpec cap N c s.last_annotated inputs := by
  induction inputs with
  | nil =>
    intro s c hn hc
    simp [runFrames, lastAnnSpec, hn, hc]
  | cons inp rest ih =>
    intro s c hn hc
    have hfc1 : s.frame_count + 1 = ((c + 1 : ℕ) : ℤ) := by rw [hc]; push_cast; ring
    have hcond : (pymod (s.frame_count + 1) s.analyze_every_n = 0) ↔ N ∣ (c + 1) := by
      rw [hfc1, hn]
      exact pymod_eq_zero_iff (c + 1) N hN
    have htn : (recognize cap inp s).1.analyze_every_n = (N : ℤ) := by
      rw [(recognize_fields cap inp s).1, hn]
    have htc : (recognize cap inp s).1.frame_count = ((c + 1 : ℕ) : ℤ) := by
      rw [(recognize_fields cap inp s).2.1, hfc1]
    obtain ⟨i1, i2, i3, i4⟩ := ih (recognize cap inp s).1 (c + 1) htn htc
    have hfst : (runFrames cap s (inp :: rest)).1 =
        (runFrames cap (recognize cap inp s).1 rest).1 := rfl
    refine ⟨by rw [hfst]; exact i1, ?_, ?_, ?_⟩
    · rw [hfst, i2]
      simp only [List.length_cons]
      congr 1
      omega
    · rw [hfst, i3, recognize_latency_len cap inp s]
      simp only [List.length_cons]
      rw [countP_range_shift N c rest.length]
      by_cases hdvd : N ∣ (c + 1)
      · rw [if_pos (hcond.2 hdvd), if_pos hdvd]
        omega
      · rw [if_neg (fun hz => hdvd (hcond.1 hz)), if_neg hdvd]
        omega
    · rw [hfst, i4, recognize_last_ann cap inp s]
      have hunf : lastAnnSpec cap N c s.last_annotated (inp :: rest) =
          lastAnnSpec cap N (c + 1)
            (if N ∣ (c + 1) then some (analyze_frame cap (flipH inp.frame)).1
             else s.last_annotated) rest := rfl
      rw [hunf]
      congr 1
      by_cases hdvd : N ∣ (c + 1)
      · rw [if_pos (hcond.2 hdvd), if_pos hdvd]
      · rw [if_neg (fun hz => hdvd (hcond.1 hz)), if_neg hdvd]

/-- Counting the calls in a range whose successor index is a multiple of
N yields the floor quotient. -/
lemma countP_range_dvd (N : ℕ) (L : ℕ) :
    (List.range L).countP (fun i => decide (N ∣ (i + 1))) = L / N := by
  induction L with
  | zero => simp
  | succ L ih =>
    rw [List.range_succ, List.countP_append, ih, Nat.succ_div]
    by_cases h : N ∣ (L + 1) <;> simp [h]

/-- The latency-ledger length after any prefix of a fresh session equals
the floor quotient of the prefix length by the interval. -/
lemma latency_len_take (cap : Capabilities) (N : ℕ) (hN : 0 < N)
    (now : ℕ) (inputs : List FrameInput) (k : ℕ) (hk : k ≤ inputs.length) :
    (runFrames cap (initState now (N : ℤ)) (inputs.take k)).1.latency_records.length =
      k / N := by
  obtain ⟨-, -, h3, -⟩ :=
    runFrames_state cap N hN (inputs.take k) (initState now (N : ℤ)) 0 rfl rfl
  rw [h3]
  have hlen : (inputs.take k).length = k := by
    rw [List.length_take]
    omega
  rw [hlen]
  simp only [Nat.zero_add]
  simp only [initState, List.length_nil, Nat.zero_add]
  rw [countP_range_dvd N k]

/-- The cache replay yields none exactly when it started empty and no
call in the window was an analysis call. -/
lemma lastAnnSpec_eq_none (cap : Capabilities) (N : ℕ) :
    ∀ (inputs : List FrameInput) (c : ℕ) (la : Option Img),
      (lastAnnSpec cap N c la inputs = none ↔
        (la = none ∧ ∀ i < inputs.length, ¬ N ∣ (c + i + 1))) := by
  intro inputs
  induction inputs with
  | nil =>
    intro c la
    simp [lastAnnSpec]
  | cons inp rest ih =>
    intro c la
    have hunf : lastAnnSpec cap N c la (inp :: rest) =
        lastAnnSpec cap N (c + 1)
          (if N ∣ (c + 1) then some (analyze_frame cap (flipH inp.frame)).1
           else la) rest := rfl
    rw [hunf, ih]
    by_cases hd : N ∣ (c + 1)
    · rw [if_pos hd]
      simp only [List.length_cons]
      constructor
      · rintro ⟨h1, -⟩
        cases h1
      · rintro ⟨-, hall⟩
        exact absurd hd (by simpa using hall 0 (by omega))
    · rw [if_neg hd]
      simp only [List.length_cons]
      constructor
      · rintro ⟨h1, h2⟩
        refine ⟨h1, ?_⟩
        intro i hi
        cases i with
        | zero => simpa using hd
        | succ j =>
          have hj := h2 j (by omega)
          have harg : c + (j + 1) + 1 = c + 1 + j + 1 := by omega
          rw [harg]
          exact hj
      · rintro ⟨h1, h2⟩
        refine ⟨h1, ?_⟩
        intro i hi
        have hj := h2 (i + 1) (by omega)
        have harg : c + (i + 1) + 1 = c + 1 + i + 1 := by omega
        rw [harg] at hj
        exact hj

/-- Below a positive N there is no positive multiple of N, and from N on
there is one. -/
lemma no_multiple_iff (N L : ℕ) (hN : 0 < N) :
    (∀ i < L, ¬ N ∣ (i + 1)) ↔ L < N := by
  constructor
  · intro h
    by_contra hL
    push_neg at hL
    have hmem : N - 1 < L := by omega
    have : N - 1 + 1 = N := by omega
    exact h (N - 1) hmem (by rw [this])
  · intro hL i hi hdvd
    have := Nat.le_of_dvd (by omega) hdvd
    omega

/-- One unfolding step of the per-face loop. -/
lemma analyzeFaces_cons (cap : Capabilities) (a : Region) (rs : List Region)
    (img : Img) :
    analyzeFaces cap (a :: rs) img =
      match cap.classify (cropRegion img a) with
      | Except.error _ => analyzeFaces cap rs img
      | Except.ok raw =>
        ((analyzeFaces cap rs
            (cap.putLabel (cap.drawRect img a) (strLower raw) a)).1,
         if strLower raw = "" then
           (analyzeFaces cap rs
             (cap.putLabel (cap.drawRect img a) (strLower raw) a)).2
         else
           strLower raw ::
             (analyzeFaces cap rs
               (cap.putLabel (cap.drawRect img a) (strLower raw) a)).2) :=
  rfl

/-- Composition of the per-face loop over a concatenated region list. -/
lemma analyzeFaces_append (cap : Capabilities) (as bs : List Region) :
    ∀ img : Img,
      analyzeFaces cap (as ++ bs) img =
        ((analyzeFaces cap bs (analyzeFaces cap as img).1).1,
         (analyzeFaces cap as img).2 ++
           (analyzeFaces cap bs (analyzeFaces cap as img).1).2) := by
  induction as with
  | nil =>
    intro img
    simp [analyzeFaces]
  | cons a as ih =>
    intro img
    rw [List.cons_append]
    cases hc : cap.classify (cropRegion img a) with
    | error e =>
      simp only [analyzeFaces_cons, hc]
      exact ih img
    | ok raw =>
      simp only [analyzeFaces_cons, hc]
      rw [ih]
      by_cases hdom : strLower raw = "" <;> simp [hdom]

/-- Membership in a stable insertion. -/
lemma mem_insertAsc (x z : String × ℕ) :
    ∀ l : List (String × ℕ), z ∈ insertAsc x l ↔ z = x ∨ z ∈ l := by
  intro l
  induction l with
  | nil => simp [insertAsc]
  | cons y ys ih =>
    unfold insertAsc
    split
    · simp only [List.mem_cons, ih]
      tauto
    · simp [List.mem_cons]

/-- Stable insertion preserves ascending order by count. -/
lemma sorted_insertAsc (x : String × ℕ) :
    ∀ l : List (String × ℕ), l.Pairwise (fun a b => a.2 ≤ b.2) →
      (insertAsc x l).Pairwise (fun a b => a.2 ≤ b.2) := by
  intro l
  induction l with
  | nil =>
    intro _
    simp [insertAsc]
  | cons y ys ih =>
    intro h
    rw [List.pairwise_cons] at h
    unfold insertAsc
    split
    · refine List.pairwise_cons.2 ⟨?_, ih h.2⟩
      intro z hz
      rcases (mem_insertAsc x z ys).1 hz with rfl | hz2
      · assumption
      · exact h.1 z hz2
    · refine List.pairwise_cons.2 ⟨?_, List.pairwise_cons.2 ⟨h.1, h.2⟩⟩
      intro z hz
      rcases List.mem_cons.1 hz with rfl | hz2
      · omega
      · exact le_trans (by omega) (h.1 z hz2)

/-- Field accounting for one summary call: only session_end can move,
and only when it was unset and at least one sample exists. -/
lemma pls_fields (now : ℕ) (s : RecState) :
    (print_latency_summary now s).1.latency_records = s.latency_records
    ∧ (print_latency_summary now s).1.session_start = s.session_start
    ∧ (print_latency_summary now s).1.stats_records = s.stats_records
    ∧ (print_latency_summary now s).1.frame_count = s.frame_count
    ∧ (print_latency_summary now s).1.last_annotated = s.last_annotated
    ∧ (print_latency_summary now s).1.analyze_every_n = s.analyze_every_n
    ∧ (print_latency_summary now s).1.session_end =
        (if s.latency_records = [] then s.session_end
         else some (s.session_end.getD now)) := by
  unfold print_latency_summary
  cases hl : s.latency_records with
  | nil => simp [hl]
  | cons x xs => simp [hl]

/-- The stable ascending sort produces an ascending list. -/
lemma sorted_sortAscStable (l : List (String × ℕ)) :
    (sortAscStable l).Pairwise (fun a b => a.2 ≤ b.2) := by
  have hgen : ∀ (xs : List (String × ℕ)) (acc : List (String × ℕ)),
      acc.Pairwise (fun a b => a.2 ≤ b.2) →
      (xs.foldl (fun acc x => insertAsc x acc) acc).Pairwise
        (fun a b => a.2 ≤ b.2) := by
    intro xs
    induction xs with
    | nil =>
      intro acc hacc
      exact hacc
    | cons x xs ih =>
      intro acc hacc
      exact ih (insertAsc x acc) (sorted_insertAsc x acc hacc)
  exact hgen l [] (by simp)

/-
Claim theorems.
-/

/-- C1: for every sampling interval N at least 1 and every sequence of L
calls to recognize from a fresh recognizer, exactly L / N (floor) of the
calls take the full-analysis branch (observable as the growth of the
latency ledger, which gains exactly one sample per analysis), the frame
counter starts at 0 and is incremented once at the start of every call,
and the analysis calls are exactly those calls after which the counter
is a multiple of N. -/
theorem C1_sampling (N : ℕ) (hN : 1 ≤ N) (cap : Capabilities) (now : ℕ)
    (inputs : List FrameInput) :
    (runFrames cap (initState now (N : ℤ)) inputs).1.latency_records.length =
      inputs.length / N
    ∧ (∀ k, k ≤ inputs.length →
        (runFrames cap (initState now (N : ℤ)) (inputs.take k)).1.frame_count =
          (k : ℤ))
    ∧ (∀ k, k < inputs.length →
        ((runFrames cap (initState now (N : ℤ))
              (inputs.take (k + 1))).1.latency_records.length =
           (runFrames cap (initState now (N : ℤ))
              (inputs.take k)).1.latency_records.length + 1
         ↔ N ∣ (k + 1))) := by
  have hN0 : 0 < N := hN
  refine ⟨?_, ?_, ?_⟩
  · have h := latency_len_take cap N hN0 now inputs inputs.length le_rfl
    rwa [List.take_length] at h
  · intro k hk
    obtain ⟨-, h2, -, -⟩ :=
      runFrames_state cap N hN0 (inputs.take k) (initState now (N : ℤ)) 0 rfl rfl
    rw [h2]
    have hlen : (inputs.take k).length = k := by
      rw [List.length_take]
      omega
    rw [hlen]
    simp
  · intro k hk
    rw [latency_len_take cap N hN0 now inputs (k + 1) (by omega),
        latency_len_take cap N hN0 now inputs k (by omega),
        Nat.succ_div]
    by_cases h : N ∣ (k + 1)
    · simp [h]
    · simp [h]

/-- Witness for C1: a fresh session with interval 2 over three frames
records exactly 3 / 2 = 1 latency sample. -/
theorem C1_sampling_witness :
    (runFrames capStub (initState 0 ((2 : ℕ) : ℤ))
        [⟨[[1]], 0, 0⟩, ⟨[[2]], 0, 0⟩, ⟨[[3]], 0, 0⟩]).1.latency_records.length =
      [⟨[[1]], 0, 0⟩, ⟨[[2]], 0, 0⟩, (⟨[[3]], 0, 0⟩ : FrameInput)].length / 2 :=
  (C1_sampling 2 (by norm_num) capStub 0 _).1

/-- C2 fails as stated: the code mirrors every frame before any other
processing, so a pass-through call returns the flipped image, not the
incoming frame unchanged.  With interval 2 the first call is off-cycle
and returns the mirror of the one-row image 1, 2. -/
theorem C2_cache_cex :
    (runFrames capStub (initState 0 ((2 : ℕ) : ℤ)) [⟨[[1, 2]], 0, 0⟩]).2 =
      [[[2, 1]]]
    ∧ ([[2, 1]] : Img) ≠ [[1, 2]] := by
  decide

/-- C2 (amended): in every fresh session with interval N at least 1,
every off-cycle call emits the mirrored incoming frame while no analysis
has happened yet, and after the first analysis it emits exactly the most
recently produced annotated frame (the cache replay lastAnnSpec);
moreover the cache is empty exactly while fewer than N calls have
happened, i.e. before the first analysis call. -/
theorem C2_cache (N : ℕ) (hN : 1 ≤ N) (cap : Capabilities) (now : ℕ)
    (pre : List FrameInput) (inp : FrameInput) (post : List FrameInput)
    (h : ¬ N ∣ (pre.length + 1)) :
    (runFrames cap (initState now (N : ℤ)) (pre ++ inp :: post)).2[pre.length]? =
      some ((lastAnnSpec cap N 0 none pre).getD (flipH inp.frame))
    ∧ (lastAnnSpec cap N 0 none pre = none ↔ pre.length < N) := by
  have hN0 : 0 < N := hN
  constructor
  · rw [runFrames_append, List.getElem?_append, runFrames_length]
    rw [if_neg (by omega)]
    rw [Nat.sub_self]
    obtain ⟨h1, h2, -, h4⟩ :=
      runFrames_state cap N hN0 pre (initState now (N : ℤ)) 0 rfl rfl
    have h4' : (runFrames cap (initState now (N : ℤ)) pre).1.last_annotated =
        lastAnnSpec cap N 0 none pre := by
      simpa [initState] using h4
    have hm : pymod
        ((runFrames cap (initState now (N : ℤ)) pre).1.frame_count + 1)
        ((runFrames cap (initState now (N : ℤ)) pre).1.analyze_every_n) ≠ 0 := by
      rw [h1, h2]
      have harg : (((0 + pre.length : ℕ) : ℤ)) + 1 =
          ((pre.length + 1 : ℕ) : ℤ) := by push_cast; ring
      rw [harg]
      intro hz
      exact h ((pymod_eq_zero_iff (pre.length + 1) N hN0).1 hz)
    rw [runFrames_snd_cons, List.getElem?_cons_zero, recognize_skip _ _ _ hm]
    simp [h4']
  · rw [lastAnnSpec_eq_none cap N pre 0 none]
    simp only [Nat.zero_add]
    simp [no_multiple_iff N pre.length hN0]

/-- Witness for C2 at N = 2 with an empty prefix: the first call is
off-cycle, the cache is empty, and the emitted frame is the mirrored
input. -/
theorem C2_cache_witness :
    (¬ 2 ∣ (List.length ([] : List FrameInput) + 1))
    ∧ (runFrames capStub (initState 0 ((2 : ℕ) : ℤ))
          ([] ++ ⟨[[1, 2]], 0, 0⟩ :: [])).2[List.length ([] : List FrameInput)]? =
        some ((lastAnnSpec capStub 2 0 none []).getD (flipH [[1, 2]])) :=
  ⟨by decide,
   (C2_cache 2 (by norm_num) capStub 0 [] ⟨[[1, 2]], 0, 0⟩ [] (by decide)).1⟩

/-- C3 fails as stated: constructing the recognizer with interval 0 or
with a negative interval succeeds (Except.ok), raising no
ConfigurationError. -/
theorem C3_init_cex :
    edumood_init 7 0 = Except.ok (initState 7 0)
    ∧ edumood_init 7 (-3) = Except.ok (initState 7 (-3)) :=
  ⟨rfl, rfl⟩

/-- C3 (amended): construction performs no validation of the sampling
interval and always succeeds, for every interval including zero and
negatives; the interval is stored as given and the fresh state has a
zero counter, empty cache and ledgers, the given session-start instant
and no session-end instant. -/
theorem C3_init (now : ℕ) (n : ℤ) :
    edumood_init now n = Except.ok (initState now n)
    ∧ (initState now n).analyze_every_n = n
    ∧ (initState now n).frame_count = 0
    ∧ (initState now n).last_annotated = none
    ∧ (initState now n).latency_records = []
    ∧ (initState now n).session_start = now
    ∧ (initState now n).session_end = none
    ∧ (initState now n).stats_records = [] :=
  ⟨rfl, rfl, rfl, rfl, rfl, rfl, rfl, rfl⟩

/-- C4: a region whose classification raises when its turn comes is
skipped entirely: the frame analysis result (annotated image and
collected labels) is the same as if the region were absent, so every
remaining region is still classified and counted; the analysis function
is total, so the exception never propagates to the caller. -/
theorem C4_region_skip (cap : Capabilities) (img0 : Img)
    (rs1 rs2 : List Region) (r : Region) (e : String)
    (hdet : cap.detect img0 = rs1 ++ r :: rs2)
    (hfail : cap.classify (cropRegion (analyzeFaces cap rs1 img0).1 r) =
      Except.error e) :
    analyze_frame cap img0 = analyzeFaces cap (rs1 ++ rs2) img0 := by
  unfold analyze_frame
  rw [hdet, analyzeFaces_append, analyzeFaces_append]
  have hmid : analyzeFaces cap (r :: rs2) (analyzeFaces cap rs1 img0).1 =
      analyzeFaces cap rs2 (analyzeFaces cap rs1 img0).1 := by
    rw [analyzeFaces_cons, hfail]
  rw [hmid]

/-- Witness for C4: on the two-by-two image the middle of three detected
faces raises, the frame result equals the two-face result, and both
surviving faces are still counted. -/
theorem C4_region_skip_witness :
    capFaces.detect [[1, 2], [3, 4]] =
      [⟨0, 0, 1, 1⟩] ++ (⟨1, 0, 1, 1⟩ : Region) :: [⟨0, 1, 1, 1⟩]
    ∧ capFaces.classify
        (cropRegion (analyzeFaces capFaces [⟨0, 0, 1, 1⟩] [[1, 2], [3, 4]]).1
          ⟨1, 0, 1, 1⟩) = Except.error "boom"
    ∧ analyze_frame capFaces [[1, 2], [3, 4]] =
        analyzeFaces capFaces ([⟨0, 0, 1, 1⟩] ++ [⟨0, 1, 1, 1⟩]) [[1, 2], [3, 4]]
    ∧ (analyze_frame capFaces [[1, 2], [3, 4]]).2 = ["happy", "happy"] :=
  ⟨rfl, rfl,
   C4_region_skip capFaces [[1, 2], [3, 4]] [⟨0, 0, 1, 1⟩] [⟨0, 1, 1, 1⟩]
     ⟨1, 0, 1, 1⟩ "boom" rfl rfl,
   by decide⟩

/-- C5: normalization folds labels case-insensitively through the fixed
synonym table, drops unrecognized labels without effect, always yields
all seven categories (zero when absent), and on the labels surprised,
fear, happy yields one surprise, one fearful, one happy and zero
elsewhere. -/
theorem C5_normalize :
    normalizeCounts ["surprised", "fear", "happy"] =
      { happy := 1, sad := 0, angry := 0, surprise := 1, neutral := 0,
        disgusted := 0, fearful := 1 }
    ∧ (∀ (l : String) (ls : List String),
        strLower l ∉ ["happy", "sad", "angry", "surprise", "surprised",
          "neutral", "disgust", "disgusted", "fear", "fearful"] →
        normalizeCounts (l :: ls) = normalizeCounts ls)
    ∧ normalizeCounts ["SURPRISED", "Fear", "hAppy"] =
        normalizeCounts ["surprised", "fear", "happy"] := by
  refine ⟨by decide, ?_, by decide⟩
  intro l ls h
  simp only [List.mem_cons, List.mem_singleton, not_or] at h
  obtain ⟨h1, h2, h3, h4, h5, h6, h7, h8, h9, h10⟩ := h
  simp [normalizeCounts, List.count_cons, beq_iff_eq,
    h1, h2, h3, h4, h5, h6, h7, h8, h9, h10]

/-- Witness for C5: the unrecognized label Bored is dropped without
effect. -/
theorem C5_normalize_witness :
    strLower "Bored" ∉ ["happy", "sad", "angry", "surprise", "surprised",
      "neutral", "disgust", "disgusted", "fear", "fearful"]
    ∧ normalizeCounts ["Bored", "sad"] = normalizeCounts ["sad"] :=
  ⟨by decide, C5_normalize.2.1 "Bored" ["sad"] (by decide)⟩

/-- C6: the latency summary with zero recorded samples reports the
explicit no-data state and computes none of the figures (the state is
returned untouched and the result is none); with the samples 10, 30, 20
it reports count 3, minimum 10, maximum 30 and average 20. -/
theorem C6_latency_summary :
    (∀ (s : RecState) (now : ℕ), s.latency_records = [] →
        print_latency_summary now s = (s, none))
    ∧ (∀ (s : RecState) (now : ℕ), s.latency_records = [10, 30, 20] →
        (print_latency_summary now s).2 =
          some ⟨3, 20, 10, 30,
            ((s.session_end.getD now : ℕ) : ℤ) - (s.session_start : ℤ)⟩) := by
  constructor
  · intro s now h
    unfold print_latency_summary
    rw [h]
  · intro s now h
    unfold print_latency_summary
    rw [h]
    norm_num

/-- Witness for C6 at concrete states: a fresh recognizer has no data,
and a state holding the samples 10, 30, 20 with session instants 4 and
9 reports count 3, average 20, minimum 10, maximum 30, duration 5. -/
theorem C6_latency_summary_witness :
    print_latency_summary 9 (initState 4 5) = (initState 4 5, none)
    ∧ (print_latency_summary 9
        { initState 4 5 with latency_records := [10, 30, 20] }).2 =
        some ⟨3, 20, 10, 30, 5⟩ :=
  ⟨C6_latency_summary.1 (initState 4 5) 9 rfl,
   by simpa [initState] using
     C6_latency_summary.2
       { initState 4 5 with latency_records := [10, 30, 20] } 9 rfl⟩

/-- C7 fails as stated: recognize itself sets the session-end instant on
every full-analysis call, so the instant is not set exactly once at the
end-of-stream event.  With interval 1 the very first frame already moves
it from unset to the call instant, with no end-of-stream involved. -/
theorem C7_session_end_cex :
    (recognize capStub ⟨[[1, 2]], 10, 42⟩ (initState 5 1)).1.session_end =
      some 42
    ∧ (initState 5 1).session_end = none := by
  decide

/-- C7 (amended): every full-analysis recognize call overwrites the
session-end instant with the call instant; the end-of-stream summary
keeps an already-set instant unchanged, and when the instant is unset
and at least one sample exists the first summary call sets it to now
while a second summary call leaves that first instant in place. -/
theorem C7_session_end :
    (∀ (cap : Capabilities) (inp : FrameInput) (s : RecState),
        pymod (s.frame_count + 1) s.analyze_every_n = 0 →
        (recognize cap inp s).1.session_end = some inp.now)
    ∧ (∀ (now : ℕ) (s : RecState) (e : ℕ), s.session_end = some e →
        (print_latency_summary now s).1.session_end = some e)
    ∧ (∀ (now now2 : ℕ) (s : RecState), s.session_end = none →
        s.latency_records ≠ [] →
        (print_latency_summary now s).1.session_end = some now
        ∧ (print_latency_summary now2
            (print_latency_summary now s).1).1.session_end = some now) := by
  refine ⟨?_, ?_, ?_⟩
  · intro cap inp s h
    rw [recognize_due cap inp s h]
  · intro now s e h
    rw [(pls_fields now s).2.2.2.2.2.2]
    split
    · exact h
    · rw [h]
      simp
  · intro now now2 s h hne
    have hfirst : (print_latency_summary now s).1.session_end = some now := by
      rw [(pls_fields now s).2.2.2.2.2.2, if_neg hne, h]
      simp
    refine ⟨hfirst, ?_⟩
    rw [(pls_fields now2 (print_latency_summary now s).1).2.2.2.2.2.2]
    rw [(pls_fields now s).1, if_neg hne, hfirst]
    simp

/-- Witness for C7 on a state with one sample and no session-end: the
first summary call stamps 100 and a second call at 200 keeps 100. -/
theorem C7_session_end_witness :
    (print_latency_summary 100 sampleEnd).1.session_end = some 100
    ∧ (print_latency_summary 200
        (print_latency_summary 100 sampleEnd).1).1.session_end = some 100 :=
  C7_session_end.2.2 100 200 sampleEnd rfl (by decide)

/-- C8: the per-category totals view lists the seven categories in
descending order of total count, with equal totals keeping the fixed
declaration order (the view is a stable descending sort); after
appending three happy and then two happy plus five sad the order is
happy 5, sad 5, then the zero categories in declaration order; and on
an empty ledger the all-zero, all-tied totals list the seven categories
exactly in declaration order. -/
theorem C8_totals :
    (∀ recs : List EmotionCounts,
        (df_grouped recs).Pairwise (fun a b => b.2 ≤ a.2))
    ∧ df_grouped [statsA, statsB] =
        [("happy", 5), ("sad", 5), ("angry", 0), ("surprise", 0),
         ("neutral", 0), ("disgusted", 0), ("fearful", 0)]
    ∧ df_grouped [] =
        [("happy", 0), ("sad", 0), ("angry", 0), ("surprise", 0),
         ("neutral", 0), ("disgusted", 0), ("fearful", 0)] := by
  refine ⟨?_, by decide, by decide⟩
  intro recs
  unfold df_grouped
  rw [List.pairwise_reverse]
  exact sorted_sortAscStable (columnTotals recs).reverse

/-- C9 fails as stated: requesting the summary is not a pure read, since
it sets the session-end instant when that instant is unset and samples
exist. -/
theorem C9_summary_cex :
    (print_latency_summary 100 sampleEnd).1.session_end ≠
      sampleEnd.session_end := by
  decide

/-- C9 (amended): the summary leaves the recorded samples, the
session-start instant, the statistics ledger, the counter and the cache
unchanged; the session-end instant is unchanged when no samples exist or
when it is already set, and is set to now only when it is unset and
samples exist. -/
theorem C9_summary_read (now : ℕ) (s : RecState) :
    (print_latency_summary now s).1.latency_records = s.latency_records
    ∧ (print_latency_summary now s).1.session_start = s.session_start
    ∧ (print_latency_summary now s).1.stats_records = s.stats_records
    ∧ (print_latency_summary now s).1.frame_count = s.frame_count
    ∧ (print_latency_summary now s).1.last_annotated = s.last_annotated
    ∧ (print_latency_summary now s).1.session_end =
        (if s.latency_records = [] then s.session_end
         else some (s.session_end.getD now)) := by
  obtain ⟨p1, p2, p3, p4, p5, -, p7⟩ := pls_fields now s
  exact ⟨p1, p2, p3, p4, p5, p7⟩

/-- C10: with a non-empty ledger the tabular view's columns are exactly
the first-appearance union of the keys of the appended dicts (append
accepts any dict, unvalidated), while the fixed eight-column schema
holds when the ledger is empty; a single record with keys happy, sad
yields exactly those two columns, not the fixed schema. -/
theorem C10_columns :
    (to_dataframe ⟨[]⟩).columns = edumoodColumns
    ∧ (∀ st : EduMoodSessionStats, st.records ≠ [] →
        (to_dataframe st).columns = unionKeys st.records)
    ∧ (to_dataframe
        (add_record ⟨[]⟩ [("happy", PyVal.i 2), ("sad", PyVal.i 1)])).columns =
        ["happy", "sad"]
    ∧ (to_dataframe
        (add_record ⟨[]⟩ [("happy", PyVal.i 2), ("sad", PyVal.i 1)])).columns ≠
        edumoodColumns := by
  refine ⟨by decide, ?_, by decide, by decide⟩
  intro st h
  unfold to_dataframe
  rw [if_neg (by simpa using h)]

/-- Witness for C10 on a one-record ledger with a single key x. -/
theorem C10_columns_witness :
    (⟨[[("x", PyVal.i 1)]]⟩ : EduMoodSessionStats).records ≠ []
    ∧ (to_dataframe ⟨[[("x", PyVal.i 1)]]⟩).columns =
        unionKeys [[("x", PyVal.i 1)]] :=
  ⟨by decide, C10_columns.2.1 ⟨[[("x", PyVal.i 1)]]⟩ (by decide)⟩

end EduMood
